import Mathlib

/-!
Shallow embedding of the role registry (blocks/roles.py) and of the step-rule
algebra of blocks/algorithms.py.  The role registry is translated directly
from blocks/roles.py.  The algorithms module is not under src; its behaviour
is modelled from the specification, and every modelled definition is checked
against the concrete fixtures of src/tests/algorithms/test_algorithms.py.
-/

namespace Blocks

/-- The closed hierarchy of role classes defined in blocks/roles.py:
InputRole, OutputRole, CostRole, ParameterRole, AuxiliaryRole, WeightsRole,
BiasesRole, FiltersRole and DropoutRole, each instantiated once. -/
inductive Role where
  | input
  | output
  | cost
  | parameter
  | auxiliary
  | weights
  | biases
  | filters
  | dropout
  deriving DecidableEq, Fintype

/-- isinstance on role classes: Role.isa r c holds when the class of r is c
or a subclass of c.  Per blocks/roles.py, WeightsRole and BiasesRole
subclass ParameterRole and FiltersRole subclasses WeightsRole; every other
role class subclasses only the abstract base. -/
def Role.isa (r c : Role) : Bool :=
  r == c ||
    match r with
    | .weights => c == .parameter
    | .biases => c == .parameter
    | .filters => c == .weights || c == .parameter
    | _ => false

/-- blocks/roles.py add_role: first drop every attached role that the new
role is an instance of (the new role is of an equal or more specific class),
then append the new role unless some remaining attached role is an instance
of the new role class. -/
def add_role (roles : List Role) (role : Role) : List Role :=
  if (roles.filter (fun old_role => ! role.isa old_role)).any
      (fun old_role => old_role.isa role) then
    roles.filter (fun old_role => ! role.isa old_role)
  else
    roles.filter (fun old_role => ! role.isa old_role) ++ [role]

/-- blocks/roles.py has_roles: one boolean match per requested role (does
some attached role instantiate the requested role class), combined with all
when match_all is set and with any otherwise. -/
def has_roles (var_roles roles : List Role) (match_all : Bool) : Bool :=
  let ms := roles.map (fun role =>
    var_roles.any (fun var_role => var_role.isa role))
  if match_all then ms.all id else ms.any id

/-- The role-set invariant: no two distinct attached roles are related by
Role.isa in either direction (in particular the list has no duplicates). -/
def rolesInvariant (roles : List Role) : Prop :=
  List.Pairwise (fun a b => a.isa b = false ∧ b.isa a = false) roles

/-- A step rule, modelled extensionally as its compute_steps behaviour: a
function from an ordered gradient mapping (an association list over keys K
with values V) to a step mapping plus a list of auxiliary updates U. -/
def StepRule (K V U : Type) : Type := List (K × V) → List (K × V) × List U

/-- Modelled from the spec: the StepRule base class of blocks/algorithms.py
(not under src) derives compute_steps from a per-parameter compute_step by
applying it to every entry in order, keeping the key order and concatenating
the per-parameter update lists. -/
def stepRuleOfStep {K V U : Type} (f : K → V → V × List U) : StepRule K V U :=
  fun previous_steps =>
    (previous_steps.map (fun p => (p.1, (f p.1 p.2).1)),
     (previous_steps.map (fun p => (f p.1 p.2).2)).flatten)

/-- Modelled from the spec: Scale of blocks/algorithms.py (not under src)
multiplies every step by the learning rate and has no updates. -/
def scaleRule {K V U : Type} [Mul V] (learning_rate : V) : StepRule K V U :=
  stepRuleOfStep (fun _ v => (learning_rate * v, []))

/-- The Euclidean norm of a list of reals, as used by StepClipping over the
full vector of all per-parameter steps. -/
noncomputable def l2_norm (xs : List ℝ) : ℝ :=
  Real.sqrt ((xs.map (fun x => x ^ 2)).sum)

/-- Modelled from the spec: StepClipping of blocks/algorithms.py (not under
src) computes the Euclidean norm of the full step vector across all
parameters and, when the norm exceeds the threshold, scales every step by
threshold over norm; otherwise all steps pass through unchanged.  No
updates. -/
noncomputable def stepClippingRule {K U : Type} (threshold : ℝ) :
    StepRule K ℝ U :=
  fun previous_steps =>
    if threshold < l2_norm (previous_steps.map Prod.snd) then
      (previous_steps.map (fun p =>
        (p.1, p.2 * (threshold / l2_norm (previous_steps.map Prod.snd)))), [])
    else
      (previous_steps, [])

/-- One iteration of the CompositeRule loop: feed the accumulated step
mapping to the next rule and append its updates. -/
def compositeStepAux {K V U : Type} (acc : List (K × V) × List U)
    (rule : StepRule K V U) : List (K × V) × List U :=
  ((rule acc.1).1, acc.2 ++ (rule acc.1).2)

/-- Modelled from the spec: CompositeRule of blocks/algorithms.py (not under
src) threads the step mapping through its component rules in listed order,
starting from the incoming mapping with an empty update list, and collects
every update produced along the way. -/
def compositeComputeSteps {K V U : Type} (rules : List (StepRule K V U))
    (previous_steps : List (K × V)) : List (K × V) × List U :=
  rules.foldl compositeStepAux (previous_steps, [])

/-- First value stored under key k in an association list, with a default
used when the key is absent. -/
def lookupD {K V : Type} [DecidableEq K] (l : List (K × V)) (k : K) (d : V) :
    V :=
  match l with
  | [] => d
  | p :: rest => if p.1 = k then p.2 else lookupD rest k d

/-- Modelled from the spec: Restrict of blocks/algorithms.py (not under src)
presents the wrapped rule with the sub-mapping of entries whose key is in
scope, copies the resulting step for every in-scope key, passes every other
entry through with its incoming value, and forwards the wrapped rule update
list unfiltered.  The source indexes the wrapped result directly, which can
never miss for a key-preserving rule; the default value of the lookup is
therefore never used in the verified situations. -/
def restrictComputeSteps {K V U : Type} [DecidableEq K]
    (rule : StepRule K V U) (keys : List K) : StepRule K V U :=
  fun previous_steps =>
    (previous_steps.map (fun p =>
        if p.1 ∈ keys then
          (p.1, lookupD
            (rule (previous_steps.filter (fun q => decide (q.1 ∈ keys)))).1
            p.1 p.2)
        else p),
     (rule (previous_steps.filter (fun q => decide (q.1 ∈ keys)))).2)

/-- The per-parameter DummyUpdatesStepRule of
src/tests/algorithms/test_algorithms.py: the step is the previous step plus
2 and the update list pairs param times 10 with param times 100. -/
def dummyStep (param : ℕ) (previous_step : ℚ) : ℚ × List (ℕ × ℕ) :=
  (previous_step + 2, [(param * 10, param * 100)])

/-- The incoming mapping of test_restrict: key i carries the value i squared
for i from 0 to 5. -/
def restrictFixture : List (ℕ × ℚ) :=
  [(0, 0), (1, 1), (2, 4), (3, 9), (4, 16), (5, 25)]

/-- A symbolic floating-point value: either a finite rational or one of the
non-finite values NaN, plus infinity, minus infinity. -/
inductive FloatVal where
  | val (x : ℚ)
  | nan
  | posInf
  | negInf
  deriving DecidableEq

/-- Finiteness test, the negation of isnan-or-isinf. -/
def FloatVal.isFinite : FloatVal → Bool
  | .val _ => true
  | _ => false

/-- Modelled from the spec: the per-parameter transform of RemoveNotFinite
of blocks/algorithms.py (not under src): a NaN or infinite step is replaced
by scaler times the current parameter value; a finite step passes through
unchanged. -/
def removeNotFiniteStep (scaler : ℚ) (param : ℚ) (g : FloatVal) : FloatVal :=
  if g.isFinite then g else .val (scaler * param)

/-- RemoveNotFinite lifted to a full step rule over a mapping whose keys
are the parameter values themselves, as in test_remove_not_finite. -/
def removeNotFiniteRule (scaler : ℚ) : StepRule ℚ FloatVal Unit :=
  stepRuleOfStep (fun param g => (removeNotFiniteStep scaler param g, []))

/-- Modelled from the spec: the construction-time validation of AdaDelta of
blocks/algorithms.py (not under src): a decay rate outside the closed unit
interval is rejected with a value error before anything else happens. -/
def adaDeltaInit (decay_rate : ℚ) : Except String Unit :=
  if 0 ≤ decay_rate ∧ decay_rate ≤ 1 then Except.ok ()
  else Except.error "decay rate needs to be in [0, 1]"

/-- Modelled from the spec: the construction-time validation of BasicRMSProp
of blocks/algorithms.py (not under src): a decay rate outside the closed
unit interval or a non-positive max scaling is rejected with a value error
before anything else happens. -/
def basicRMSPropInit (decay_rate max_scaling : ℚ) : Except String Unit :=
  if ¬ (0 ≤ decay_rate ∧ decay_rate ≤ 1) then
    Except.error "decay rate needs to be in [0, 1]"
  else if max_scaling ≤ 0 then
    Except.error "max. scaling needs to be greater than 0"
  else Except.ok ()

/-- Modelled from the spec: the construction-time validation of
GradientDescent of blocks/algorithms.py (not under src).  The spec demands a
failure when neither a cost nor an explicit gradient mapping is supplied.
The spec additionally claims a failure when both are supplied, but
test_gradient_descent_with_gradients in src constructs with both cost and
gradients and runs successfully, so only the missing case fails here. -/
def gradientDescentInit (has_cost has_gradients : Bool) :
    Except String Unit :=
  if has_cost || has_gradients then Except.ok ()
  else Except.error "either cost or gradients must be given"

/-- Modelled from the spec: one gradient-descent assignment for a parameter
with the default Scale step rule, parameter becomes parameter minus
learning rate times gradient. -/
def gradientDescentUpdate (learning_rate w g : ℚ) : ℚ :=
  w - learning_rate * g

/-- Modelled from the spec: the BasicRMSProp moving average of the squared
gradient, decay times the old average plus one minus decay times the
squared incoming gradient. -/
noncomputable def basicRMSPropMeanSq (decay_rate mean_sq g : ℝ) : ℝ :=
  decay_rate * mean_sq + (1 - decay_rate) * g ^ 2

/-- The BasicRMSProp step for one parameter and one invocation, with the
denominator floor placed as the test fixtures of src demand: the step is
the gradient divided by the maximum of the root of the updated mean square
and epsilon, where epsilon is one over max scaling. -/
noncomputable def basicRMSPropStep (decay_rate max_scaling mean_sq g : ℝ) :
    ℝ :=
  g / max (Real.sqrt (basicRMSPropMeanSq decay_rate mean_sq g))
      (1 / max_scaling)

/-- Modelled from the spec: the BasicRMSProp step exactly as the spec words
the formula, with the epsilon floor applied inside the square root: the
step is the gradient divided by the root of the maximum of the updated mean
square and epsilon. -/
noncomputable def basicRMSPropStepSpecFormula
    (decay_rate max_scaling mean_sq g : ℝ) : ℝ :=
  g / Real.sqrt (max (basicRMSPropMeanSq decay_rate mean_sq g)
      (1 / max_scaling))

/-- Role.isa is reflexive: every role class instantiates itself. -/
theorem isa_refl (r : Role) : r.isa r = true := by
  cases r <;> rfl

/-- Role.isa is transitive along the subclass chains of blocks/roles.py. -/
theorem isa_trans : ∀ a b c : Role,
    a.isa b = true → b.isa c = true → a.isa c = true := by
  decide

/-- Every member of the result of add_role was already attached or is the
role just added. -/
theorem mem_add_role {roles : List Role} {r x : Role}
    (hx : x ∈ add_role roles r) : x ∈ roles ∨ x = r := by
  unfold add_role at hx
  split at hx
  · exact Or.inl (List.mem_filter.mp hx).1
  · rcases List.mem_append.mp hx with h | h
    · exact Or.inl (List.mem_filter.mp h).1
    · exact Or.inr (List.mem_singleton.mp h)

/-- add_role preserves the mutual-non-subsumption invariant. -/
theorem rolesInvariant_add_role {roles : List Role}
    (h : rolesInvariant roles) (r : Role) :
    rolesInvariant (add_role roles r) := by
  have hfil : rolesInvariant
      (roles.filter (fun old_role => ! r.isa old_role)) :=
    h.sublist (List.filter_sublist roles)
  unfold add_role
  split
  · exact hfil
  · rename_i hany
    refine List.pairwise_append.mpr ⟨hfil, by simp, ?_⟩
    intro a ha b hb
    rw [List.mem_singleton] at hb
    subst hb
    constructor
    · cases hh : a.isa b
      · rfl
      · exact absurd (List.any_eq_true.mpr ⟨a, ha, hh⟩) hany
    · have hmem := List.mem_filter.mp ha
      simpa using hmem.2

/-- After add_role, some attached role is at least as specific as the role
just added. -/
theorem add_role_cover (roles : List Role) (r : Role) :
    ∃ x ∈ add_role roles r, x.isa r = true := by
  unfold add_role
  split
  · rename_i hany
    exact List.any_eq_true.mp hany
  · exact ⟨r, List.mem_append_right _ (List.mem_singleton.mpr rfl),
      isa_refl r⟩

/-- add_role never loses coverage: a role class that was covered by some
attached role stays covered after any further add_role call. -/
theorem add_role_cover_mono {roles : List Role} {p : Role}
    (h : ∃ x ∈ roles, x.isa p = true) (q : Role) :
    ∃ x ∈ add_role roles q, x.isa p = true := by
  obtain ⟨x, hx, hxp⟩ := h
  cases hqx : q.isa x with
  | true =>
    obtain ⟨y, hy, hyq⟩ := add_role_cover roles q
    exact ⟨y, hy, isa_trans y q p hyq (isa_trans q x p hqx hxp)⟩
  | false =>
    have hxf : x ∈ roles.filter (fun old_role => ! q.isa old_role) :=
      List.mem_filter.mpr ⟨hx, by simp [hqx]⟩
    unfold add_role
    split
    · exact ⟨x, hxf, hxp⟩
    · exact ⟨x, List.mem_append_left _ hxf, hxp⟩

/-- Folding add_role preserves the invariant. -/
theorem foldl_add_role_invariant (ops : List Role) :
    ∀ init : List Role, rolesInvariant init →
      rolesInvariant (ops.foldl add_role init) := by
  induction ops with
  | nil => exact fun init h => h
  | cons q rest ih =>
    exact fun init h => ih (add_role init q) (rolesInvariant_add_role h q)

/-- Folding add_role covers every role added along the way (and keeps any
coverage the start list already had). -/
theorem foldl_add_role_cover (ops : List Role) :
    ∀ init : List Role, ∀ p : Role,
      ((∃ x ∈ init, x.isa p = true) ∨ p ∈ ops) →
      ∃ x ∈ ops.foldl add_role init, x.isa p = true := by
  induction ops with
  | nil =>
    intro init p h
    rcases h with h | h
    · exact h
    · cases h
  | cons q rest ih =>
    intro init p h
    rcases h with h | h
    · exact ih (add_role init q) p (Or.inl (add_role_cover_mono h q))
    · rcases List.mem_cons.mp h with rfl | h2
      · exact ih (add_role init p) p (Or.inl (add_role_cover init p))
      · exact ih (add_role init q) p (Or.inr h2)

/-- Folding add_role introduces no role that was not added or initial. -/
theorem foldl_add_role_subset (ops : List Role) :
    ∀ init : List Role, ∀ x : Role,
      x ∈ ops.foldl add_role init → x ∈ init ∨ x ∈ ops := by
  induction ops with
  | nil => exact fun init x hx => Or.inl hx
  | cons q rest ih =>
    intro init x hx
    rcases ih (add_role init q) x hx with h | h
    · rcases mem_add_role h with h2 | h2
      · exact Or.inl h2
      · exact Or.inr (by rw [h2]; exact List.mem_cons_self q rest)
    · exact Or.inr (List.mem_cons_of_mem q h)

/-- C1: for every finite sequence of add_role calls starting from the empty
role list, the resulting list never contains two roles where the class of
one equals or subclasses the class of the other; every role ever added is
represented by an attached role of an equal or more specific class, and
that representative is itself one of the added roles; in particular adding
PARAMETER then WEIGHTS leaves exactly WEIGHTS, and re-adding PARAMETER
afterwards still leaves exactly WEIGHTS. -/
theorem add_role_most_specific_invariant (ops : List Role) :
    rolesInvariant (ops.foldl add_role []) ∧
    (∀ r ∈ ops, ∃ x ∈ ops.foldl add_role [], x.isa r = true) ∧
    (∀ x ∈ ops.foldl add_role [], x ∈ ops) ∧
    add_role (add_role [] Role.parameter) Role.weights = [Role.weights] ∧
    add_role (add_role (add_role [] Role.parameter) Role.weights)
      Role.parameter = [Role.weights] := by
  refine ⟨foldl_add_role_invariant ops [] (List.Pairwise.nil), ?_, ?_,
    by decide, by decide⟩
  · exact fun r hr => foldl_add_role_cover ops [] r (Or.inr hr)
  · intro x hx
    rcases foldl_add_role_subset ops [] x hx with h | h
    · cases h
    · exact h

/-- C1 witness: the invariant theorem applied to the concrete call sequence
PARAMETER then WEIGHTS. -/
theorem add_role_most_specific_invariant_witness :
    rolesInvariant ([Role.parameter, Role.weights].foldl add_role []) ∧
    (∀ r ∈ [Role.parameter, Role.weights],
      ∃ x ∈ [Role.parameter, Role.weights].foldl add_role [],
        x.isa r = true) ∧
    (∀ x ∈ [Role.parameter, Role.weights].foldl add_role [],
      x ∈ [Role.parameter, Role.weights]) ∧
    add_role (add_role [] Role.parameter) Role.weights = [Role.weights] ∧
    add_role (add_role (add_role [] Role.parameter) Role.weights)
      Role.parameter = [Role.weights] :=
  add_role_most_specific_invariant [Role.parameter, Role.weights]

/-- C2: on a non-empty list of requested roles, has_roles with match_all is
exactly the conjunction over requested roles of the existence of an
attached role instantiating the requested role class, and has_roles
without match_all is exactly the corresponding disjunction. -/
theorem has_roles_conjunction_disjunction (var_roles roles : List Role)
    (h : roles ≠ []) :
    (has_roles var_roles roles true = true ↔
      ∀ r ∈ roles, ∃ v ∈ var_roles, v.isa r = true) ∧
    (has_roles var_roles roles false = true ↔
      ∃ r ∈ roles, ∃ v ∈ var_roles, v.isa r = true) := by
  constructor
  · simp [has_roles, List.all_eq_true, List.any_eq_true]
  · simp [has_roles, List.all_eq_true, List.any_eq_true]

/-- C2 witness: the equivalence applied with FILTERS attached and WEIGHTS
requested. -/
theorem has_roles_conjunction_disjunction_witness :
    ([Role.weights] ≠ ([] : List Role)) ∧
    ((has_roles [Role.filters] [Role.weights] true = true ↔
      ∀ r ∈ [Role.weights], ∃ v ∈ [Role.filters], v.isa r = true) ∧
    (has_roles [Role.filters] [Role.weights] false = true ↔
      ∃ r ∈ [Role.weights], ∃ v ∈ [Role.filters], v.isa r = true)) :=
  ⟨by decide,
    has_roles_conjunction_disjunction [Role.filters] [Role.weights]
      (by decide)⟩

/-- C10: on an empty list of requested roles, has_roles returns true with
match_all set (vacuous conjunction) and false without it (empty
disjunction), whatever roles the variable has attached. -/
theorem has_roles_empty_query (var_roles : List Role) :
    has_roles var_roles [] true = true ∧
    has_roles var_roles [] false = false :=
  ⟨rfl, rfl⟩

/-- C3 counterexample: construction with both a cost and an explicit
gradient mapping succeeds, exactly as test_gradient_descent_with_gradients
exercises, contradicting the claim that it must fail. -/
theorem gradientDescent_both_given_constructs :
    gradientDescentInit true true = Except.ok () := rfl

/-- C3 (amended): GradientDescent construction fails with a value error
exactly when neither a cost nor an explicit gradient mapping is supplied;
every other combination constructs, and the resulting default update with
learning rate three quarters on the gradient two w maps w to minus half w,
as both gradient-descent tests observe. -/
theorem gradientDescentInit_requires_cost_or_gradients (w : ℚ) :
    (∃ e, gradientDescentInit false false = Except.error e) ∧
    gradientDescentInit true true = Except.ok () ∧
    gradientDescentInit true false = Except.ok () ∧
    gradientDescentInit false true = Except.ok () ∧
    gradientDescentUpdate (3 / 4) w (2 * w) = -(1 / 2) * w := by
  refine ⟨⟨_, rfl⟩, rfl, rfl, rfl, ?_⟩
  unfold gradientDescentUpdate
  ring

/-- C8: RemoveNotFinite is total and per case replaces a NaN or infinite
step by scaler times the current parameter value while passing every
finite step through unchanged; on the fixture of test_remove_not_finite
the parameters valued 1 and 2 holding NaN and infinity receive steps 0.1
and 0.2 with the default scaler, and 1 and 2 with scaler 1. -/
theorem removeNotFinite_step_spec (scaler param x : ℚ) :
    removeNotFiniteStep scaler param FloatVal.nan
      = FloatVal.val (scaler * param) ∧
    removeNotFiniteStep scaler param FloatVal.posInf
      = FloatVal.val (scaler * param) ∧
    removeNotFiniteStep scaler param FloatVal.negInf
      = FloatVal.val (scaler * param) ∧
    removeNotFiniteStep scaler param (FloatVal.val x) = FloatVal.val x ∧
    (removeNotFiniteRule (1 / 10)
        [(1, FloatVal.nan), (2, FloatVal.posInf)]).1
      = [(1, FloatVal.val (1 / 10)), (2, FloatVal.val (1 / 5))] ∧
    (removeNotFiniteRule 1 [(1, FloatVal.nan), (2, FloatVal.posInf)]).1
      = [(1, FloatVal.val 1), (2, FloatVal.val 2)] := by
  refine ⟨rfl, rfl, rfl, rfl, ?_, ?_⟩ <;>
    norm_num [removeNotFiniteRule, stepRuleOfStep, removeNotFiniteStep,
      FloatVal.isFinite]

/-- C9: AdaDelta rejects every decay rate outside the closed unit interval,
BasicRMSProp rejects every such decay rate and every non-positive max
scaling, and both accept all in-range arguments; the checks depend only on
the constructor arguments, so they fire at construction time. -/
theorem stepRuleInit_validation (d m : ℚ) :
    (d < 0 ∨ 1 < d →
      (∃ e, adaDeltaInit d = Except.error e) ∧
      ∃ e, basicRMSPropInit d m = Except.error e) ∧
    (m ≤ 0 → ∃ e, basicRMSPropInit d m = Except.error e) ∧
    (0 ≤ d → d ≤ 1 → 0 < m →
      adaDeltaInit d = Except.ok () ∧
      basicRMSPropInit d m = Except.ok ()) := by
  refine ⟨?_, ?_, ?_⟩
  · intro h
    have hrange : ¬ (0 ≤ d ∧ d ≤ 1) := by
      rcases h with h | h
      · exact fun hc => absurd hc.1 (not_le.mpr h)
      · exact fun hc => absurd hc.2 (not_le.mpr h)
    constructor
    · exact ⟨_, by unfold adaDeltaInit; rw [if_neg hrange]⟩
    · exact ⟨_, by unfold basicRMSPropInit; rw [if_pos hrange]⟩
  · intro hm
    by_cases hrange : 0 ≤ d ∧ d ≤ 1
    · exact ⟨"max. scaling needs to be greater than 0", by
        unfold basicRMSPropInit
        rw [if_neg (not_not.mpr hrange), if_pos hm]⟩
    · exact ⟨_, by unfold basicRMSPropInit; rw [if_pos hrange]⟩
  · intro h0 h1 hm
    constructor
    · unfold adaDeltaInit
      rw [if_pos ⟨h0, h1⟩]
    · unfold basicRMSPropInit
      rw [if_neg (not_not.mpr ⟨h0, h1⟩), if_neg (not_le.mpr hm)]

/-- C9 witness: the validation theorem applied at the inputs the sanity
check tests use, decay rates minus 1 and 2 and max scaling minus 1. -/
theorem stepRuleInit_validation_witness :
    ((-1 : ℚ) < 0 ∨ 1 < (-1 : ℚ)) ∧
    ((∃ e, adaDeltaInit (-1) = Except.error e) ∧
      ∃ e, basicRMSPropInit (-1) 1 = Except.error e) ∧
    ((2 : ℚ) < 0 ∨ 1 < (2 : ℚ)) ∧
    (∃ e, adaDeltaInit 2 = Except.error e) ∧
    ((-1 : ℚ) ≤ 0) ∧
    (∃ e, basicRMSPropInit (1 / 2) (-1) = Except.error e) := by
  refine ⟨Or.inl (by norm_num),
    (stepRuleInit_validation (-1) 1).1 (Or.inl (by norm_num)),
    Or.inr (by norm_num),
    ((stepRuleInit_validation 2 1).1 (Or.inr (by norm_num))).1,
    by norm_num,
    (stepRuleInit_validation (1 / 2) (-1)).2.1 (by norm_num)⟩

/-- Folding the composite loop from an arbitrary accumulated update list
just prepends that list to the updates collected from a fresh run. -/
theorem composite_foldl_shift {K V U : Type}
    (rules : List (StepRule K V U)) :
    ∀ (s : List (K × V)) (u : List U),
      rules.foldl compositeStepAux (s, u) =
        ((compositeComputeSteps rules s).1,
         u ++ (compositeComputeSteps rules s).2) := by
  induction rules with
  | nil =>
    intro s u
    simp [compositeComputeSteps]
  | cons r rs ih =>
    intro s u
    show rs.foldl compositeStepAux ((r s).1, u ++ (r s).2) = _
    rw [ih]
    have h2 : compositeComputeSteps (r :: rs) s
        = ((compositeComputeSteps rs (r s).1).1,
           (r s).2 ++ (compositeComputeSteps rs (r s).1).2) := by
      show rs.foldl compositeStepAux ((r s).1, [] ++ (r s).2) = _
      rw [ih]
      simp
    rw [h2]
    simp

/-- Unfolding one step of the composite loop. -/
theorem composite_cons {K V U : Type} (r : StepRule K V U)
    (rs : List (StepRule K V U)) (s : List (K × V)) :
    compositeComputeSteps (r :: rs) s =
      ((compositeComputeSteps rs (r s).1).1,
       (r s).2 ++ (compositeComputeSteps rs (r s).1).2) := by
  show rs.foldl compositeStepAux ((r s).1, [] ++ (r s).2) = _
  rw [composite_foldl_shift]
  simp

/-- The composite loop over a concatenation of rule lists feeds the output
mapping of the first segment to the second and concatenates their update
lists. -/
theorem composite_append {K V U : Type} (rs₁ rs₂ : List (StepRule K V U))
    (s : List (K × V)) :
    compositeComputeSteps (rs₁ ++ rs₂) s =
      ((compositeComputeSteps rs₂ (compositeComputeSteps rs₁ s).1).1,
       (compositeComputeSteps rs₁ s).2 ++
         (compositeComputeSteps rs₂ (compositeComputeSteps rs₁ s).1).2) := by
  induction rs₁ generalizing s with
  | nil => simp [compositeComputeSteps]
  | cons r rs ih =>
    rw [List.cons_append, composite_cons, composite_cons, ih]
    simp

/-- The Euclidean norm of the step vector of the clipping fixture is 5. -/
theorem l2_norm_34 :
    l2_norm ([((0 : ℕ), (3 : ℝ)), (1, 4)].map Prod.snd) = 5 := by
  unfold l2_norm
  have h : ((([((0 : ℕ), (3 : ℝ)), (1, 4)].map Prod.snd).map
      (fun x => x ^ 2)).sum) = 25 := by
    simp only [List.map_cons, List.map_nil, List.sum_cons, List.sum_nil]
    norm_num
  rw [h, show (25 : ℝ) = 5 ^ 2 by norm_num, Real.sqrt_sq (by norm_num)]

/-- StepClipping at threshold 4 on the norm-5 fixture scales both steps by
four fifths. -/
theorem stepClipping_34_eval :
    (stepClippingRule 4 [((0 : ℕ), (3 : ℝ)), (1, 4)]
      : List (ℕ × ℝ) × List Unit) = ([(0, 12 / 5), (1, 16 / 5)], []) := by
  unfold stepClippingRule
  rw [l2_norm_34, if_pos (by norm_num : (4 : ℝ) < 5)]
  norm_num

/-- StepClipping at threshold 5 on the norm-5 fixture passes both steps
through unchanged. -/
theorem stepClipping_34_id :
    (stepClippingRule 5 [((0 : ℕ), (3 : ℝ)), (1, 4)]
      : List (ℕ × ℝ) × List Unit) = ([(0, 3), (1, 4)], []) := by
  unfold stepClippingRule
  rw [l2_norm_34, if_neg (by norm_num : ¬ (5 : ℝ) < 5)]

/-- C5: the composite rule on an empty rule list is the identity with no
updates, on a singleton it is that rule, and on a concatenation it feeds
the output mapping of the first segment to the second segment and returns
the last mapping together with all update lists concatenated in rule
order; on the test fixture, StepClipping at 4 followed by Scale at 0.1 on
the gradients 3 and 4 produces the steps 0.24 and 0.32, and two
update-producing rules have their updates concatenated in listed order. -/
theorem compositeRule_threading {K V U : Type} (r : StepRule K V U)
    (rs₁ rs₂ : List (StepRule K V U)) (prev : List (K × V)) :
    compositeComputeSteps ([] : List (StepRule K V U)) prev = (prev, []) ∧
    compositeComputeSteps [r] prev = ((r prev).1, (r prev).2) ∧
    compositeComputeSteps (rs₁ ++ rs₂) prev =
      ((compositeComputeSteps rs₂ (compositeComputeSteps rs₁ prev).1).1,
       (compositeComputeSteps rs₁ prev).2 ++
         (compositeComputeSteps rs₂ (compositeComputeSteps rs₁ prev).1).2) ∧
    (compositeComputeSteps
        ([stepClippingRule 4, scaleRule (1 / 10)]
          : List (StepRule ℕ ℝ Unit)) [(0, 3), (1, 4)]).1
      = [(0, 6 / 25), (1, 8 / 25)] ∧
    compositeComputeSteps
        ([fun s => (s, [(1, 2)]), fun s => (s, [(3, 4)])]
          : List (StepRule ℕ ℚ (ℕ × ℕ))) []
      = ([], [(1, 2), (3, 4)]) := by
  refine ⟨rfl, ?_, composite_append rs₁ rs₂ prev, ?_, rfl⟩
  · rw [composite_cons]
    simp [compositeComputeSteps]
  · rw [composite_cons, stepClipping_34_eval]
    rw [composite_cons]
    simp [compositeComputeSteps, scaleRule, stepRuleOfStep]
    norm_num

/-- C7: StepClipping preserves the key list; whenever the Euclidean norm of
the full step vector across all parameters exceeds the threshold it scales
every step by threshold over norm, and otherwise it returns every step
unchanged; on the fixture with gradients 3 and 4 (norm 5), threshold 4
yields steps 12 fifths and 16 fifths while threshold 5 leaves 3 and 4
unchanged. -/
theorem stepClipping_norm_behavior (threshold : ℝ)
    (prev : List (ℕ × ℝ)) :
    ((stepClippingRule threshold prev : List (ℕ × ℝ) × List Unit).1.map
        Prod.fst = prev.map Prod.fst) ∧
    (threshold < l2_norm (prev.map Prod.snd) →
      (stepClippingRule threshold prev : List (ℕ × ℝ) × List Unit).1 =
        prev.map (fun p =>
          (p.1, p.2 * (threshold / l2_norm (prev.map Prod.snd))))) ∧
    (l2_norm (prev.map Prod.snd) ≤ threshold →
      (stepClippingRule threshold prev
        : List (ℕ × ℝ) × List Unit).1 = prev) ∧
    (stepClippingRule 4 [(0, 3), (1, 4)] : List (ℕ × ℝ) × List Unit).1
      = [(0, 12 / 5), (1, 16 / 5)] ∧
    (stepClippingRule 5 [(0, 3), (1, 4)] : List (ℕ × ℝ) × List Unit).1
      = [(0, 3), (1, 4)] := by
  refine ⟨?_, ?_, ?_, by rw [stepClipping_34_eval], by rw [stepClipping_34_id]⟩
  · unfold stepClippingRule
    by_cases h : threshold < l2_norm (prev.map Prod.snd)
    · rw [if_pos h]
      simp
    · rw [if_neg h]
  · intro h
    unfold stepClippingRule
    rw [if_pos h]
  · intro h
    unfold stepClippingRule
    rw [if_neg (not_lt.mpr h)]

/-- C7 witness: the clipping theorem applied at threshold 4 to the norm-5
fixture, with the strict norm bound discharged concretely. -/
theorem stepClipping_norm_behavior_witness :
    (4 : ℝ) < l2_norm ([((0 : ℕ), (3 : ℝ)), (1, 4)].map Prod.snd) ∧
    (stepClippingRule 4 [((0 : ℕ), (3 : ℝ)), (1, 4)]
        : List (ℕ × ℝ) × List Unit).1 =
      [((0 : ℕ), (3 : ℝ)), (1, 4)].map (fun p =>
        (p.1, p.2 * (4 / l2_norm
          ([((0 : ℕ), (3 : ℝ)), (1, 4)].map Prod.snd)))) := by
  have h4 : (4 : ℝ) < l2_norm ([((0 : ℕ), (3 : ℝ)), (1, 4)].map Prod.snd) := by
    rw [l2_norm_34]
    norm_num
  exact ⟨h4,
    (stepClipping_norm_behavior 4 [(0, 3), (1, 4)]).2.1 h4⟩

/-- In the image of a key-value map over a list with pairwise distinct
keys, looking a member key up returns the mapped value of that member. -/
theorem lookupD_map_of_nodup {K V W : Type} [DecidableEq K]
    (g : K × V → W) :
    ∀ l : List (K × V), (l.map Prod.fst).Nodup →
      ∀ p ∈ l, ∀ d : W,
        lookupD (l.map (fun q => (q.1, g q))) p.1 d = g p := by
  intro l
  induction l with
  | nil =>
    intro _ p hp
    cases hp
  | cons q rest ih =>
    intro hn p hp d
    rw [List.map_cons] at hn
    have hn2 := List.nodup_cons.mp hn
    rcases List.mem_cons.mp hp with rfl | hp2
    · simp [lookupD]
    · have hne : q.1 ≠ p.1 := by
        intro he
        exact hn2.1 (by rw [he]; exact List.mem_map_of_mem Prod.fst hp2)
      simp only [List.map_cons, lookupD]
      rw [if_neg hne]
      exact ih hn2.2 p hp2 d

/-- C6: Restrict forwards the wrapped rule update list unmodified (not
filtered by key); for a rule derived from a per-parameter transform it
returns a mapping with exactly the keys of the input, where every in-scope
key carries the wrapped transform of its incoming value and every
out-of-scope key keeps its incoming value; on the test fixtures over keys
0 to 5 with value i squared, restricting Scale at 0.1 to keys 1 and 4
rescales exactly those two entries, and restricting the dummy updates rule
adds 2 to exactly those two entries while returning both update pairs. -/
theorem restrict_frame {K V U : Type} [DecidableEq K]
    (rule : StepRule K V U) (f : K → V → V × List U) (keys : List K)
    (prev : List (K × V)) (hnd : (prev.map Prod.fst).Nodup) :
    ((restrictComputeSteps rule keys prev).2 =
      (rule (prev.filter (fun q => decide (q.1 ∈ keys)))).2) ∧
    ((restrictComputeSteps (stepRuleOfStep f) keys prev).1 =
      prev.map (fun p =>
        if p.1 ∈ keys then (p.1, (f p.1 p.2).1) else p)) ∧
    ((restrictComputeSteps (stepRuleOfStep f) keys prev).1.map Prod.fst =
      prev.map Prod.fst) ∧
    ((restrictComputeSteps (scaleRule (1 / 10) : StepRule ℕ ℚ (ℕ × ℕ))
        [1, 4] restrictFixture).1 =
      [(0, 0), (1, 1 / 10), (2, 4), (3, 9), (4, 8 / 5), (5, 25)]) ∧
    restrictComputeSteps (stepRuleOfStep dummyStep) [1, 4] restrictFixture =
      ([(0, 0), (1, 3), (2, 4), (3, 9), (4, 18), (5, 25)],
       [(10, 100), (40, 400)]) := by
  have hkey : ∀ p ∈ prev, p.1 ∈ keys →
      lookupD ((stepRuleOfStep f
        (prev.filter (fun q => decide (q.1 ∈ keys)))).1) p.1 p.2
        = (f p.1 p.2).1 := by
    intro p hp hpk
    have hpf : p ∈ prev.filter (fun q => decide (q.1 ∈ keys)) :=
      List.mem_filter.mpr ⟨hp, by simpa using hpk⟩
    have hnf : ((prev.filter
        (fun q => decide (q.1 ∈ keys))).map Prod.fst).Nodup :=
      hnd.sublist ((List.filter_sublist prev).map Prod.fst)
    exact lookupD_map_of_nodup (fun q => (f q.1 q.2).1) _ hnf p hpf p.2
  have hmain : (restrictComputeSteps (stepRuleOfStep f) keys prev).1 =
      prev.map (fun p =>
        if p.1 ∈ keys then (p.1, (f p.1 p.2).1) else p) := by
    refine List.map_congr_left ?_
    intro p hp
    by_cases hpk : p.1 ∈ keys
    · rw [if_pos hpk, if_pos hpk, hkey p hp hpk]
    · rw [if_neg hpk, if_neg hpk]
  refine ⟨rfl, hmain, ?_, ?_, ?_⟩
  · rw [hmain, List.map_map]
    refine List.map_congr_left ?_
    intro p hp
    by_cases hpk : p.1 ∈ keys
    · simp [hpk]
    · simp [hpk]
  · norm_num [restrictComputeSteps, stepRuleOfStep, scaleRule, lookupD,
      restrictFixture, List.filter]
  · norm_num [restrictComputeSteps, stepRuleOfStep, lookupD,
      restrictFixture, dummyStep, List.filter]

/-- C6 witness: the frame theorem applied to the concrete fixture of
test_restrict, with the distinct-keys hypothesis discharged by
computation. -/
theorem restrict_frame_witness :
    (restrictFixture.map Prod.fst).Nodup ∧
    (((restrictComputeSteps (scaleRule (1 / 10) : StepRule ℕ ℚ (ℕ × ℕ))
        [1, 4] restrictFixture).2 =
      ((scaleRule (1 / 10) : StepRule ℕ ℚ (ℕ × ℕ))
        (restrictFixture.filter (fun q => decide (q.1 ∈ [1, 4])))).2) ∧
    ((restrictComputeSteps (stepRuleOfStep dummyStep) [1, 4]
        restrictFixture).1 =
      restrictFixture.map (fun p =>
        if p.1 ∈ [1, 4] then (p.1, (dummyStep p.1 p.2).1) else p)) ∧
    ((restrictComputeSteps (stepRuleOfStep dummyStep) [1, 4]
        restrictFixture).1.map Prod.fst = restrictFixture.map Prod.fst) ∧
    ((restrictComputeSteps (scaleRule (1 / 10) : StepRule ℕ ℚ (ℕ × ℕ))
        [1, 4] restrictFixture).1 =
      [(0, 0), (1, 1 / 10), (2, 4), (3, 9), (4, 8 / 5), (5, 25)]) ∧
    restrictComputeSteps (stepRuleOfStep dummyStep) [1, 4] restrictFixture =
      ([(0, 0), (1, 3), (2, 4), (3, 9), (4, 18), (5, 25)],
       [(10, 100), (40, 400)])) :=
  ⟨by decide,
    restrict_frame (scaleRule (1 / 10)) dummyStep [1, 4] restrictFixture
      (by decide)⟩

/-- The effective per-element scale of the BasicRMSProp step never exceeds
max scaling, because the denominator is floored at one over max scaling. -/
theorem basicRMSProp_bound (decay_rate max_scaling mean_sq g : ℝ)
    (hm : 0 < max_scaling) :
    |basicRMSPropStep decay_rate max_scaling mean_sq g|
      ≤ max_scaling * |g| := by
  unfold basicRMSPropStep
  have h1 : (0 : ℝ) < 1 / max_scaling := by positivity
  have h2 : 1 / max_scaling ≤
      max (Real.sqrt (basicRMSPropMeanSq decay_rate mean_sq g))
        (1 / max_scaling) := le_max_right _ _
  have hd : (0 : ℝ) <
      max (Real.sqrt (basicRMSPropMeanSq decay_rate mean_sq g))
        (1 / max_scaling) := lt_of_lt_of_le h1 h2
  have hm0 : max_scaling ≠ 0 := ne_of_gt hm
  rw [abs_div, abs_of_pos hd, div_le_iff hd]
  calc |g| = max_scaling * |g| * (1 / max_scaling) := by field_simp
    _ ≤ max_scaling * |g| *
        max (Real.sqrt (basicRMSPropMeanSq decay_rate mean_sq g))
          (1 / max_scaling) :=
      mul_le_mul_of_nonneg_left h2 (by positivity)

/-- On the max-scaling fixture (decay one half, max scaling 100000, first
gradient 2 over 1000000) the first BasicRMSProp step is one fifth. -/
theorem basicRMSProp_fixture_smallgrad :
    basicRMSPropStep (1 / 2) 100000 0 (2 / 1000000) = 1 / 5 := by
  unfold basicRMSPropStep basicRMSPropMeanSq
  have hms : (1 / 2 : ℝ) * 0 + (1 - 1 / 2) * (2 / 1000000) ^ 2
      = 1 / 500000000000 := by norm_num
  rw [hms]
  have hle : Real.sqrt (1 / 500000000000) ≤ 1 / 100000 := by
    rw [show (1 / 100000 : ℝ) = Real.sqrt ((1 / 100000) ^ 2) from
      (Real.sqrt_sq (by norm_num)).symm]
    exact Real.sqrt_le_sqrt (by norm_num)
  rw [max_eq_right hle]
  norm_num

/-- On the first call of the basic fixture (gradient 6, decay one half) the
BasicRMSProp step is the square root of 2. -/
theorem basicRMSProp_fixture_34 :
    basicRMSPropStep (1 / 2) 100000 0 6 = Real.sqrt 2 := by
  unfold basicRMSPropStep basicRMSPropMeanSq
  have hms : (1 / 2 : ℝ) * 0 + (1 - 1 / 2) * 6 ^ 2 = 18 := by norm_num
  rw [hms]
  have h18 : Real.sqrt 18 = 3 * Real.sqrt 2 := by
    rw [show (18 : ℝ) = 3 ^ 2 * 2 by norm_num,
      Real.sqrt_mul (by positivity), Real.sqrt_sq (by norm_num)]
  have h1 : (1 : ℝ) ≤ Real.sqrt 2 := by
    rw [show (1 : ℝ) = Real.sqrt 1 from Real.sqrt_one.symm]
    exact Real.sqrt_le_sqrt (by norm_num)
  have hge : (1 / 100000 : ℝ) ≤ Real.sqrt 18 := by
    rw [h18]
    linarith
  rw [max_eq_left hge, h18, show (6 : ℝ) = 3 * 2 by norm_num,
    mul_div_mul_left 2 (Real.sqrt 2) (by norm_num : (3 : ℝ) ≠ 0)]
  exact Real.div_sqrt

/-- C4 counterexample: with the step formula exactly as the spec words it,
epsilon floored inside the square root, the max-scaling fixture evaluates
to 2e-6 divided by the root of 1e-5 and not to the 0.2 the test asserts. -/
theorem basicRMSPropSpecFormula_fixture_fails :
    basicRMSPropStepSpecFormula (1 / 2) 100000 0 (2 / 1000000) ≠ 1 / 5 := by
  unfold basicRMSPropStepSpecFormula basicRMSPropMeanSq
  have hms : (1 / 2 : ℝ) * 0 + (1 - 1 / 2) * (2 / 1000000) ^ 2
      = 1 / 500000000000 := by norm_num
  rw [hms, max_eq_right
    (by norm_num : (1 / 500000000000 : ℝ) ≤ 1 / 100000)]
  intro h
  have hpos : 0 < Real.sqrt (1 / 100000 : ℝ) :=
    Real.sqrt_pos.mpr (by norm_num)
  have hs : Real.sqrt (1 / 100000 : ℝ) = 1 / 100000 := by
    rw [div_eq_iff (ne_of_gt hpos)] at h
    linarith
  have hsq := Real.sq_sqrt (by norm_num : (0 : ℝ) ≤ 1 / 100000)
  rw [hs] at hsq
  norm_num at hsq

/-- C4 (amended): BasicRMSProp updates the mean square to decay times the
old mean square plus one minus decay times the squared gradient and
divides the gradient by the maximum of the root of that mean square and
epsilon, with epsilon one over max scaling (the floor sits outside the
square root); consequently the per-element scale of the step never exceeds
max scaling, and on the fixture with decay one half, max scaling 100000
and first gradient 2e-6 the first step is exactly 0.2, while the first
step of the gradient-6 fixture is the square root of 2. -/
theorem basicRMSProp_scale_bound_and_fixture
    (decay_rate max_scaling mean_sq g : ℝ) (hm : 0 < max_scaling) :
    |basicRMSPropStep decay_rate max_scaling mean_sq g|
        ≤ max_scaling * |g| ∧
    basicRMSPropStep (1 / 2) 100000 0 (2 / 1000000) = 1 / 5 ∧
    basicRMSPropStep (1 / 2) 100000 0 6 = Real.sqrt 2 :=
  ⟨basicRMSProp_bound decay_rate max_scaling mean_sq g hm,
   basicRMSProp_fixture_smallgrad, basicRMSProp_fixture_34⟩

/-- C4 witness: the bound theorem applied at concrete arguments with the
positivity hypothesis discharged numerically. -/
theorem basicRMSProp_scale_bound_and_fixture_witness :
    (0 : ℝ) < 2 ∧
    (|basicRMSPropStep 1 2 3 4| ≤ 2 * |(4 : ℝ)| ∧
     basicRMSPropStep (1 / 2) 100000 0 (2 / 1000000) = 1 / 5 ∧
     basicRMSPropStep (1 / 2) 100000 0 6 = Real.sqrt 2) :=
  ⟨by norm_num, basicRMSProp_scale_bound_and_fixture 1 2 3 4 (by norm_num)⟩

end Blocks
